import Mathlib

/-!
Verification development for the PNG writer plugin (`src/PNG/WritePNG.cpp`).

Buffers are shallowly embedded as total functions from byte/element offsets
(`Int`, standing for C pointers) to values; C `float` samples are modelled as
exact rationals (`ℚ`); machine 32-bit unsigned arithmetic is `Nat` arithmetic
modulo 2^32.  Stateful code is translated into explicit state passing, and the
externally visible actions of one `encode` call (file open, header commit, row
emission, finalization) are recorded in an event trace.
-/

set_option maxRecDepth 100000
set_option maxHeartbeats 1000000

namespace WritePNG

/-- Pointwise update of a byte buffer (`*p = v` at offset `i`). -/
def setB (f : Int → ℕ) (i : Int) (v : ℕ) (j : Int) : ℕ :=
  if j = i then v else f j

/-- Pointwise update of a float buffer (`*p = v` at float index `i`). -/
def setQ (f : Int → ℚ) (i : Int) (v : ℚ) (j : Int) : ℚ :=
  if j = i then v else f j

/-- Modelled from the spec: the quantizer `floatToInt<maxValue>` used at
WritePNG.cpp:582 and WritePNG.cpp:599 is defined in the SupportExt support
library, which is not part of this repository snapshot.  Spec §4.3: clamp
values < 0 to 0 and values ≥ 1 to `levels−1`, and round rather than truncate
in-range values (`levels` is the template argument, 256 or 65536). -/
def floatToInt (levels : Nat) (f : ℚ) : Nat :=
  if f < 0 then 0
  else if 1 ≤ f then levels - 1
  else (⌊f * ((levels : ℚ) - 1) + 1/2⌋).toNat

/-- One C++ `std::swap(c[i], c[j])` on a byte buffer: both bytes are read, then
both are written (WritePNG.cpp:131-139). -/
def swapBytes (f : Int → ℕ) (i j : Int) (k : Int) : ℕ :=
  if k = i then f j else if k = j then f i else f k

/-- The body of the per-element loop of `swap_endian` (WritePNG.cpp:129-141):
the pairwise byte swaps applied to one element of `size` bytes starting at
byte pointer `base`.  An element size other than 2, 4 or 8 leaves the element
untouched, as in the source (no `else` branch). -/
def swapOneElem (size : Nat) (base : Int) (f : Int → ℕ) : Int → ℕ :=
  if size = 2 then swapBytes f base (base + 1)
  else if size = 4 then swapBytes (swapBytes f base (base + 3)) (base + 1) (base + 2)
  else if size = 8 then
    swapBytes (swapBytes (swapBytes (swapBytes f base (base + 7)) (base + 1) (base + 6))
      (base + 2) (base + 5)) (base + 3) (base + 4)
  else f

/-- `swap_endian<T> (T *f, int len)` (WritePNG.cpp:125-142): reverses the byte
order of each of `len` consecutive elements of `size = sizeof(T)` bytes,
starting at byte pointer `base`, element by element. -/
def swap_endian (size : Nat) (len : Nat) (base : Int) (f : Int → ℕ) : Int → ℕ :=
  match len with
  | 0 => f
  | n + 1 => swap_endian size n (base + size) (swapOneElem size base f)

/-- 2^32: the modulus of C `unsigned int` arithmetic. -/
def U32 : Nat := 4294967296

/-- 32-bit wraparound addition (`a += b` on unsigned int). -/
def add32 (a b : Nat) : Nat := (a + b) % U32

/-- 32-bit wraparound subtraction (`a -= b` on unsigned int); all callers keep
both arguments below 2^32. -/
def sub32 (a b : Nat) : Nat := (a + U32 - b) % U32

/-- `rotl32` (WritePNG.cpp:439-441): bitwise circular rotation left by k bits
for 32-bit unsigned integers. -/
def rotl32 (x : Nat) (k : Nat) : Nat := ((x <<< k) % U32) ||| (x >>> (32 - k))

/-- `bjmix` (WritePNG.cpp:447-455): the Bob Jenkins lookup3 mixing step, six
subtract/rotate-left/xor/add triples cycling across the three state words.
The shadowing lets mirror the C assignment sequence exactly. -/
def bjmix (a b c : Nat) : Nat × Nat × Nat :=
  let a := Nat.xor (sub32 a c) (rotl32 c 4)
  let c := add32 c b
  let b := Nat.xor (sub32 b a) (rotl32 a 6)
  let a := add32 a c
  let c := Nat.xor (sub32 c b) (rotl32 b 8)
  let b := add32 b a
  let a := Nat.xor (sub32 a c) (rotl32 c 16)
  let c := add32 c b
  let b := Nat.xor (sub32 b a) (rotl32 a 19)
  let a := add32 a c
  let c := Nat.xor (sub32 c b) (rotl32 b 4)
  let b := add32 b a
  (a, b, c)

/-- The hash-to-float conversion of add_dither (WritePNG.cpp:478):
`bc / float(std::numeric_limits<uint32_t>::max())`, as an exact rational. -/
def ditherValue (bc : Nat) : ℚ := (bc : ℚ) / 4294967295

/-- The per-channel loop of add_dither (WritePNG.cpp:473-480): mix the state,
skip the `alpha` channel (the mixing still happened), otherwise add
`amp * (hash − 0.5)` in place to the sample at float index `pixBase + ch`.
The counter word of the state is incremented at every iteration, including the
skipped channel (`++bc` sits in the loop header).  `fuel` is the number of
remaining channels, `ch` the current channel index. -/
def ditherChans (alpha : Int) (amp : ℚ) (pixBase : Int) :
    Nat → Nat → Nat × Nat × Nat → (Int → ℚ) → ((Int → ℚ) × (Nat × Nat × Nat))
  | 0, _, st, data => (data, st)
  | fuel + 1, ch, st, data =>
      let m := bjmix st.1 st.2.1 st.2.2
      let data1 := if (ch : Int) = alpha then data
        else setQ data (pixBase + ch) (data (pixBase + ch) + amp * (ditherValue m.2.2 - 1/2))
      ditherChans alpha amp pixBase fuel (ch + 1) (m.1, m.2.1, add32 m.2.2 1) data1

/-- The per-pixel loop of add_dither (WritePNG.cpp:471-481): the pixel pointer
advances `xstride` bytes per pixel from the start of the walked range; a byte
offset `o` reinterpreted as a float pointer is float index `o / 4` (exact
whenever the offset is 4-byte aligned, which holds for the stride used in the
concrete evaluations below).  `fuel` counts remaining pixels, `x` the pixel
index; the mixing state is threaded across pixels. -/
def ditherPixels (nchannels : Nat) (alpha : Int) (amp : ℚ) (xstride : Nat) :
    Nat → Nat → Nat × Nat × Nat → (Int → ℚ) → ((Int → ℚ) × (Nat × Nat × Nat))
  | 0, _, st, data => (data, st)
  | fuel + 1, x, st, data =>
      let r := ditherChans alpha amp ((x * xstride / 4 : Nat) : Int) nchannels 0 st data
      ditherPixels nchannels alpha amp xstride fuel (x + 1) r.2 r.1

/-- The per-row loop of add_dither (WritePNG.cpp:466-482).  The state words are
re-initialized per row as `ba = y`, `bb = ditherseed + (0 << 24)`, `bc = 0`.
Note: the source resets its `pixel` pointer to `data` at the start of every
row (WritePNG.cpp:467); the `scanline` pointer is advanced by `ystride` in the
loop header but never read, so every iteration walks the same byte range
starting at offset 0 of the buffer and `ystride` has no effect. -/
def ditherRows (nchannels width : Nat) (alpha : Int) (amp : ℚ) (xstride : Nat) (seed : Nat) :
    Nat → Nat → (Int → ℚ) → (Int → ℚ)
  | 0, _, data => data
  | fuel + 1, y, data =>
      let st0 : Nat × Nat × Nat := (y % U32, (seed + (0 <<< 24)) % U32, 0)
      let r := ditherPixels nchannels alpha amp xstride width 0 st0 data
      ditherRows nchannels width alpha amp xstride seed fuel (y + 1) r.1

/-- `add_dither` (WritePNG.cpp:457-483): in-place dithering of a float sample
grid, modelled as a buffer transformer.  `xstride` and `ystride` are the byte
strides the source receives; as in the source, `ystride` ends up unused (see
ditherRows). -/
def add_dither (nchannels width height : Nat) (data : Int → ℚ)
    (xstride ystride : Nat) (ditheramplitude : ℚ) (alpha_channel : Int)
    (ditherseed : Nat) : Int → ℚ :=
  ditherRows nchannels width alpha_channel ditheramplitude xstride ditherseed height 0 data

/-- Byte-level model of storing one `unsigned short` value `q` at short index
`k`: on a little-endian host the low byte sits at byte offset `2k` and the
high byte at `2k + 1`; on a big-endian host the other way round.  This models
the memory layout of the C short stores `dst_pixels[c] = ...` of the 16-bit
path, which `swap_endian` later reorders at the byte level. -/
def setShort (le : Bool) (dst : Int → ℕ) (k : Int) (q : Nat) : Int → ℕ :=
  if le then setB (setB dst (2 * k) (q % 256)) (2 * k + 1) (q / 256)
  else setB (setB dst (2 * k) (q / 256)) (2 * k + 1) (q % 256)

/-- The 8-bit per-channel loop (WritePNG.cpp:581-583):
`dst_pixels[c] = floatToInt<256>(src_pixels[dstNCompsStartIndex + c])` for
c = 0 .. n−1, with destination byte pointer `dB` and source float pointer
`sB`; `start` is `dstNCompsStartIndex`. -/
def chans8 (src : Int → ℚ) (start : Nat) (dB sB : Int) : Nat → (Int → ℕ) → (Int → ℕ)
  | 0, dst => dst
  | n + 1, dst => setB (chans8 src start dB sB n dst) (dB + n)
      (floatToInt 256 (src (sB + (start + n : Nat))))

/-- The 8-bit per-pixel loop (WritePNG.cpp:578-584): after each pixel the
destination pointer advances by `dstN = dstNComps` bytes and the source
pointer by `srcN = pixelDataNComps` floats; `nComps` is
`min(dstNComps, pixelDataNComps)` (WritePNG.cpp:568), `fuel` the number of
remaining pixels. -/
def pixels8 (src : Int → ℚ) (start nComps dstN srcN : Nat) :
    Nat → Int → Int → (Int → ℕ) → (Int → ℕ)
  | 0, _, _, dst => dst
  | n + 1, dB, sB, dst =>
      pixels8 src start nComps dstN srcN n (dB + dstN) (sB + srcN)
        (chans8 src start dB sB nComps dst)

/-- The 8-bit row loop (WritePNG.cpp:575-585): on top of the advances done by
the pixel loop, the for-header adds `dstRowElements − width*dstNComps` (zero
for the tightly packed destination) and `srcRowElements − width*pixelDataNComps`
to the two pointers after each row. -/
def rows8 (src : Int → ℚ) (start nComps dstN srcN width : Nat)
    (dstRowElements srcRowElements : Int) : Nat → Int → Int → (Int → ℕ) → (Int → ℕ)
  | 0, _, _, dst => dst
  | n + 1, dB, sB, dst =>
      rows8 src start nComps dstN srcN width dstRowElements srcRowElements n
        (dB + (width * dstN : Nat) + (dstRowElements - (width * dstN : Nat)))
        (sB + (width * srcN : Nat) + (srcRowElements - (width * srcN : Nat)))
        (pixels8 src start nComps dstN srcN width dB sB dst)

/-- The 16-bit per-channel loop (WritePNG.cpp:598-600):
`dst_pixels[c] = floatToInt<65536>(src_pixels[dstNCompsStartIndex + c])`,
each short stored at short index `dB + c` in host byte order. -/
def chans16 (le : Bool) (src : Int → ℚ) (start : Nat) (dB sB : Int) :
    Nat → (Int → ℕ) → (Int → ℕ)
  | 0, dst => dst
  | n + 1, dst => setShort le (chans16 le src start dB sB n dst) (dB + n)
      (floatToInt 65536 (src (sB + (start + n : Nat))))

/-- The 16-bit per-pixel loop (WritePNG.cpp:595-601), analogous to pixels8
with short-sized destination elements. -/
def pixels16 (le : Bool) (src : Int → ℚ) (start nComps dstN srcN : Nat) :
    Nat → Int → Int → (Int → ℕ) → (Int → ℕ)
  | 0, _, _, dst => dst
  | n + 1, dB, sB, dst =>
      pixels16 le src start nComps dstN srcN n (dB + dstN) (sB + srcN)
        (chans16 le src start dB sB nComps dst)

/-- The 16-bit row loop (WritePNG.cpp:592-613): write one row of shorts,
rewind both pointers to the row start (the explicit subtractions at
WritePNG.cpp:604-605), byte-swap the just-written row of `dstRowElements`
shorts when the host is little-endian (PNG is always big-endian,
WritePNG.cpp:607-610), then move to the next row (`+= srcRowElements` floats
and `+= dstRowElements` shorts in the for-header). -/
def rows16 (le : Bool) (src : Int → ℚ) (start nComps dstN srcN width : Nat)
    (dstRowElements : Nat) (srcRowElements : Int) :
    Nat → Int → Int → (Int → ℕ) → (Int → ℕ)
  | 0, _, _, dst => dst
  | n + 1, dB, sB, dst =>
      let dst1 := pixels16 le src start nComps dstN srcN width dB sB dst
      let dst2 := if le then swap_endian 2 dstRowElements (2 * dB) dst1 else dst1
      rows16 le src start nComps dstN srcN width dstRowElements srcRowElements n
        (dB + dstRowElements) (sB + srcRowElements) dst2

/-- The PNG bit depth selected by the writer (WritePNG.cpp:547): 8-bit for
choice index 0, 16-bit otherwise. -/
inductive BitDepth
  | ubyte
  | ushort
  deriving DecidableEq

/-- The sRGB-family color-space names of write_info's chain (WritePNG.cpp:374). -/
def srgbNames : List String :=
  ["sRGB", "sRGB D65", "sRGB (D60 sim.)", "out_srgbd60sim", "rrt_srgb", "srgb8"]

/-- The Gamma2.2-family names (WritePNG.cpp:378). -/
def gamma22Names : List String := ["Gamma2.2", "vd8", "vd10", "vd16", "VD16"]

/-- The Linear-family names (WritePNG.cpp:380). -/
def linearNames : List String := ["Linear", "linear", "ACES2065-1", "aces", "lnf", "ln16"]

/-- The PNG header fields committed by write_info (WritePNG.cpp:358-435):
the png_set_IHDR dimensions, bit depth and color type, the png_set_oFFs pixel
offsets, the gamma/profile hint, and the png_set_pHYs physical resolution.
`srgbChunk` records that png_set_sRGB_gAMA_and_cHRM was called; `gamma`
records the value of an explicit png_set_gAMA call. -/
structure PngInfo where
  width : Int
  height : Int
  bitDepth : Nat
  colorType : Nat
  offsX : Int
  offsY : Int
  srgbChunk : Bool
  gamma : Option ℚ
  physX : Int
  physY : Int

/-- `create_write_struct` (WritePNG.cpp:148-175): maps the channel count to the
PNG color type (gray 0, gray+alpha 4, RGB 2, RGB+alpha 6) and throws for any
other count; allocation of the png write/info structs is modelled as always
succeeding (their failure paths carry no claim-relevant behavior). -/
def create_write_struct (nChannels : Nat) : Except String Nat :=
  match nChannels with
  | 1 => .ok 0
  | 2 => .ok 4
  | 3 => .ok 2
  | 4 => .ok 6
  | _ => .error "PNG only supports 1-4 channels"

/-- `WritePNGPlugin::write_info` (WritePNG.cpp:358-435) as a pure header
computation: IHDR from bit depth and color type, oFFs from the region origin,
the gamma/profile hint from the exact-match if/else chain over the color-space
name, and pHYs from the pixel aspect ratio (xres 100, scale 100/2.54, yres
scaled by the aspect ratio when nonzero, truncated to integers). -/
def write_info (color_type : Nat) (x1 y1 : Int) (width height : Int) (par : ℚ)
    (ocioColorspace : String) (bitdepth : BitDepth) : PngInfo :=
  let pixelBytes : Nat := if bitdepth = BitDepth.ubyte then 1 else 2
  let gammaPair : Bool × Option ℚ :=
    if ocioColorspace ∈ srgbNames then (true, none)
    else if ocioColorspace = "Gamma1.8" then (false, some (1 / 1.8))
    else if ocioColorspace ∈ gamma22Names then (false, some (1 / 2.2))
    else if ocioColorspace ∈ linearNames then (false, some 1)
    else (false, none)
  { width := width, height := height, bitDepth := pixelBytes * 8,
    colorType := color_type, offsX := x1, offsY := y1,
    srgbChunk := gammaPair.1, gamma := gammaPair.2,
    physX := ⌊(100 : ℚ) * (100 / 2.54)⌋,
    physY := ⌊(100 : ℚ) * (if par = 0 then 1 else par) * (100 / 2.54)⌋ }

/-- The arguments of WritePNGPlugin::encode (WritePNG.cpp:486-495); the float
buffer itself is passed separately.  `rowBytes` is the source row stride in
bytes. -/
structure EncodeArgs where
  filename : String
  x1 : Int
  y1 : Int
  x2 : Int
  y2 : Int
  pixelAspect : ℚ
  pixelDataNComps : Nat
  dstNCompsStartIndex : Nat
  dstNComps : Nat
  rowBytes : Nat

/-- The host-side state one encode call reads: the plugin parameter values it
fetches (compression choice, compression level, bit-depth choice index,
dithering flag), the OCIO output color space configured on the plugin (which
encode never reads — see encode), the host endianness probed by
littleendian(), and whether opening the destination file succeeds. -/
structure WriterParams where
  compression : Nat
  compressionLevel : Int
  bitdepth : Nat
  ditherEnabled : Bool
  outputColorspace : String
  littleEndian : Bool
  fopenOK : Bool

/-- The externally visible events of one encode call, in order: the fopen of
the destination path (the moment the file is created), the header commit
(png_write_info, called inside write_info), each png_write_row — `wroteRow y`
denotes emitting the scratch-buffer row that starts at byte y * pngRowSize
(WritePNG.cpp:626) — then png_write_end and the fclose. -/
inductive Ev
  | openedFile (name : String)
  | wroteInfo
  | wroteRow (y : Nat)
  | wroteEnd
  | closedFile
  deriving DecidableEq

/-- The error outcomes of encode: the unsupported-channel-count rejection at
WritePNG.cpp:497-500 (kOfxStatErrFormat) and the catch-all around openFile at
WritePNG.cpp:509-512 (kOfxStatFailed), carrying the thrown message. -/
inductive EncodeError
  | unsupportedChannelCount
  | openFileFailed (msg : String)
  deriving DecidableEq

/-- The artifacts of a successful encode: the committed header, the caller's
float buffer as it stands after the call (the dithering path mutates it in
place), and the transcoded scratch byte buffer. -/
structure EncodeOk where
  info : PngInfo
  srcAfter : Int → ℚ
  scratch : Int → ℕ

/-- The dithering step of encode (WritePNG.cpp:552-558): only at 8-bit depth
and with dithering enabled, add_dither runs in place on the caller's buffer,
with byte strides xstride = pixelDataNComps * bitDepthSize and
ystride = xstride * width (bitDepthSize is 1 in this branch), amplitude
1/255, excluded channel 3 for 4-channel sources and −1 otherwise, seed 1. -/
def ditheredSource (args : EncodeArgs) (p : WriterParams) (pixelData : Int → ℚ) : Int → ℚ :=
  if p.bitdepth = 0 ∧ p.ditherEnabled then
    add_dither args.pixelDataNComps (args.x2 - args.x1).toNat (args.y2 - args.y1).toNat
      pixelData (args.pixelDataNComps * 1)
      (args.pixelDataNComps * 1 * (args.x2 - args.x1).toNat)
      (1 / 255) (if args.pixelDataNComps = 4 then 3 else -1) 1
  else pixelData

/-- The scratch-buffer production of encode (WritePNG.cpp:560-615): a
zero-initialized RamBuffer of height * pngRowSize bytes (RamBuffer comes from
the support library; per the spec the Scratch Raster Buffer is
zero-initialized on allocation) filled by the 8-bit or 16-bit conversion
loop; `data` is the buffer the loops read (the possibly dithered source);
dstRowElements = width * dstNComps and srcRowElements = rowBytes / 4
(WritePNG.cpp:561-569). -/
def encodeScratch (args : EncodeArgs) (p : WriterParams) (data : Int → ℚ) : Int → ℕ :=
  let width := (args.x2 - args.x1).toNat
  let height := (args.y2 - args.y1).toNat
  let nComps := min args.dstNComps args.pixelDataNComps
  let srcRowElements : Int := (args.rowBytes / 4 : Nat)
  if p.bitdepth = 0 then
    rows8 data args.dstNCompsStartIndex nComps args.dstNComps args.pixelDataNComps width
      ((width * args.dstNComps : Nat) : Int) srcRowElements height 0 0 (fun _ => 0)
  else
    rows16 p.littleEndian data args.dstNCompsStartIndex nComps args.dstNComps
      args.pixelDataNComps width (width * args.dstNComps) srcRowElements height 0 0
      (fun _ => 0)

/-- The row-emission loop of encode (WritePNG.cpp:618-628): for y from
height−1 down to 0, png_write_row of the scratch row starting at byte
y * pngRowSize; the produced event list, first-emitted row first. -/
def rowLoop : Nat → List Ev
  | 0 => []
  | n + 1 => Ev.wroteRow n :: rowLoop n

/-- `WritePNGPlugin::encode` (WritePNG.cpp:486-633), as the pair of the trace
of its external actions and its outcome.  The channel-count check comes first
(only 4, 3 or 1 destination components pass, WritePNG.cpp:497-501); then
openFile creates the file with fopen and runs create_write_struct; the
compression tunables are handed to the opaque zlib sink (not modelled);
write_info commits the header — with `std::string()` (the empty string) as
its color-space argument (WritePNG.cpp:548), not the configured output
space; then optional dithering, transcoding into the scratch buffer,
reverse-order row emission, and finalization.  PNG struct allocation and row
writes are modelled as succeeding; fopen succeeds iff `p.fopenOK`. -/
def encode (args : EncodeArgs) (p : WriterParams) (pixelData : Int → ℚ) :
    List Ev × Except EncodeError EncodeOk :=
  if args.dstNComps ≠ 4 ∧ args.dstNComps ≠ 3 ∧ args.dstNComps ≠ 1 then
    ([], .error .unsupportedChannelCount)
  else if p.fopenOK then
    match create_write_struct args.dstNComps with
    | .error msg => ([.openedFile args.filename, .closedFile], .error (.openFileFailed msg))
    | .ok color_type =>
      let pngDetph := if p.bitdepth = 0 then BitDepth.ubyte else BitDepth.ushort
      let info := write_info color_type args.x1 args.y1 (args.x2 - args.x1)
        (args.y2 - args.y1) args.pixelAspect "" pngDetph
      let srcAfter := ditheredSource args p pixelData
      ([Ev.openedFile args.filename, Ev.wroteInfo]
          ++ rowLoop (args.y2 - args.y1).toNat ++ [Ev.wroteEnd, Ev.closedFile],
        .ok { info := info, srcAfter := srcAfter,
              scratch := encodeScratch args p srcAfter })
  else ([], .error (.openFileFailed "Could not open file"))

/-- The committed header of a successful encode call, if any. -/
def encodeInfo (args : EncodeArgs) (p : WriterParams) (pixelData : Int → ℚ) :
    Option PngInfo :=
  match (encode args p pixelData).2 with
  | .ok r => some r.info
  | .error _ => none

/-- The caller's float buffer after a successful encode call, if any. -/
def encodeSrcAfter (args : EncodeArgs) (p : WriterParams) (pixelData : Int → ℚ) :
    Option (Int → ℚ) :=
  match (encode args p pixelData).2 with
  | .ok r => some r.srcAfter
  | .error _ => none

/-- The scratch-row indices read by the row-emission events of a trace, in
emission order. -/
def rowWrites (t : List Ev) : List Nat :=
  t.filterMap fun e => match e with
    | .wroteRow y => some y
    | _ => none

-- ===== THEOREMS =====

theorem floatToInt_mid_le (L : Nat) (hL : 1 ≤ L) {f : ℚ} (h1 : ¬ 1 ≤ f) :
    (⌊f * ((L : ℚ) - 1) + 1/2⌋).toNat ≤ L - 1 := by
  have hLq : (1 : ℚ) ≤ (L : ℚ) := by exact_mod_cast hL
  have hf1 : f < 1 := lt_of_not_le h1
  have hfl : ⌊f * ((L : ℚ) - 1) + 1/2⌋ < (L : ℤ) := by
    rw [Int.floor_lt]
    push_cast
    nlinarith
  omega

theorem floatToInt_le (L : Nat) (hL : 1 ≤ L) (f : ℚ) : floatToInt L f ≤ L - 1 := by
  unfold floatToInt
  split_ifs with h1 h2
  · exact Nat.zero_le _
  · exact le_rfl
  · exact floatToInt_mid_le L hL h2

theorem floatToInt_mono (L : Nat) (hL : 1 ≤ L) {f g : ℚ} (h : f ≤ g) :
    floatToInt L f ≤ floatToInt L g := by
  have hLq : (1 : ℚ) ≤ (L : ℚ) := by exact_mod_cast hL
  unfold floatToInt
  by_cases h1 : f < 0
  · simp only [if_pos h1]
    exact Nat.zero_le _
  · by_cases h2 : 1 ≤ f
    · have hg : 1 ≤ g := le_trans h2 h
      simp only [if_neg h1, if_pos h2, if_neg (not_lt.mpr (le_trans zero_le_one hg)),
        if_pos hg, le_refl]
    · simp only [if_neg h1, if_neg h2]
      by_cases h3 : g < 0
      · linarith
      · by_cases h4 : 1 ≤ g
        · simp only [if_neg h3, if_pos h4]
          exact floatToInt_mid_le L hL h2
        · simp only [if_neg h3, if_neg h4]
          refine Int.toNat_le_toNat (Int.floor_le_floor ?_)
          nlinarith

/-- C5: the quantizer maps every input into [0, levels−1] for levels 256 and
65536, sends 0.0 to 0 and 1.0 to levels−1, is monotone in the sample, clamps
values below 0 to 0 and values at or above 1 to levels−1, and rounds in-range
values to the nearest level (0.5 → 128 resp. 32768, where truncation would
give 127 resp. 32767). -/
theorem floatToInt_quantizer_spec (f g : ℚ) (h : f ≤ g) :
    floatToInt 256 f ≤ 255 ∧ floatToInt 65536 f ≤ 65535 ∧
    floatToInt 256 0 = 0 ∧ floatToInt 65536 0 = 0 ∧
    floatToInt 256 1 = 255 ∧ floatToInt 65536 1 = 65535 ∧
    floatToInt 256 f ≤ floatToInt 256 g ∧
    floatToInt 65536 f ≤ floatToInt 65536 g ∧
    (f < 0 → floatToInt 256 f = 0 ∧ floatToInt 65536 f = 0) ∧
    (1 ≤ f → floatToInt 256 f = 255 ∧ floatToInt 65536 f = 65535) ∧
    floatToInt 256 (1/2) = 128 ∧ floatToInt 65536 (1/2) = 32768 := by
  refine ⟨floatToInt_le 256 (by norm_num) f, floatToInt_le 65536 (by norm_num) f,
    ?_, ?_, ?_, ?_,
    floatToInt_mono 256 (by norm_num) h, floatToInt_mono 65536 (by norm_num) h,
    ?_, ?_, ?_, ?_⟩
  · have : ⌊(0 : ℚ) * ((256 : ℚ) - 1) + 1/2⌋ = 0 := by
      rw [Int.floor_eq_iff] <;> norm_num
    norm_num [floatToInt, this]
  · have : ⌊(0 : ℚ) * ((65536 : ℚ) - 1) + 1/2⌋ = 0 := by
      rw [Int.floor_eq_iff] <;> norm_num
    norm_num [floatToInt, this]
  · simp [floatToInt]
  · simp [floatToInt]
  · intro hf
    constructor <;> simp [floatToInt, hf]
  · intro hf
    constructor <;> simp [floatToInt, hf, not_lt.mpr (le_trans zero_le_one hf)]
  · have : ⌊(1/2 : ℚ) * ((256 : ℚ) - 1) + 1/2⌋ = 128 := by
      rw [Int.floor_eq_iff] <;> norm_num
    norm_num [floatToInt, this]
    rfl
  · have : ⌊(1/2 : ℚ) * ((65536 : ℚ) - 1) + 1/2⌋ = 32768 := by
      rw [Int.floor_eq_iff] <;> norm_num
    norm_num [floatToInt, this]
    rfl

/-- Witness for C5 at the concrete pair f = 0, g = 1. -/
theorem floatToInt_quantizer_spec_witness : floatToInt 256 0 ≤ 255 :=
  (floatToInt_quantizer_spec 0 1 (by norm_num)).1

theorem swapOneElem_apply (size : Nat) (base : Int) (f : Int → ℕ)
    (hs : size = 2 ∨ size = 4 ∨ size = 8) (p : Nat) (hp : p < size) :
    swapOneElem size base f (base + p) = f (base + (size - 1 - p : Nat)) := by
  rcases hs with rfl | rfl | rfl
  all_goals interval_cases p
  all_goals simp only [swapOneElem]
  all_goals norm_num [swapBytes]

theorem swapOneElem_frame (size : Nat) (base : Int) (f : Int → ℕ) (i : Int)
    (hi : i < base ∨ base + size ≤ i) : swapOneElem size base f i = f i := by
  unfold swapOneElem
  split_ifs with hs2 hs4 hs8
  · have h0 : i ≠ base := by rcases hi with hi | hi <;> omega
    have h1 : i ≠ base + 1 := by rcases hi with hi | hi <;> omega
    simp only [swapBytes, if_neg h0, if_neg h1]
  · have h0 : i ≠ base := by rcases hi with hi | hi <;> omega
    have h1 : i ≠ base + 1 := by rcases hi with hi | hi <;> omega
    have h2 : i ≠ base + 2 := by rcases hi with hi | hi <;> omega
    have h3 : i ≠ base + 3 := by rcases hi with hi | hi <;> omega
    simp only [swapBytes, if_neg h0, if_neg h1, if_neg h2, if_neg h3]
  · have h0 : i ≠ base := by rcases hi with hi | hi <;> omega
    have h1 : i ≠ base + 1 := by rcases hi with hi | hi <;> omega
    have h2 : i ≠ base + 2 := by rcases hi with hi | hi <;> omega
    have h3 : i ≠ base + 3 := by rcases hi with hi | hi <;> omega
    have h4 : i ≠ base + 4 := by rcases hi with hi | hi <;> omega
    have h5 : i ≠ base + 5 := by rcases hi with hi | hi <;> omega
    have h6 : i ≠ base + 6 := by rcases hi with hi | hi <;> omega
    have h7 : i ≠ base + 7 := by rcases hi with hi | hi <;> omega
    simp only [swapBytes, if_neg h0, if_neg h1, if_neg h2, if_neg h3, if_neg h4, if_neg h5,
      if_neg h6, if_neg h7]
  · rfl

theorem swap_endian_frame_low (size : Nat) :
    ∀ (len : Nat) (base : Int) (f : Int → ℕ) (i : Int), i < base →
      swap_endian size len base f i = f i := by
  intro len
  induction len with
  | zero => intro base f i _; rfl
  | succ n ih =>
    intro base f i hi
    show swap_endian size n (base + size) (swapOneElem size base f) i = f i
    have hlt : i < base + (size : Int) := by omega
    rw [ih (base + size) (swapOneElem size base f) i hlt]
    exact swapOneElem_frame size base f i (Or.inl hi)

theorem swap_endian_frame_high (size : Nat) :
    ∀ (len : Nat) (base : Int) (f : Int → ℕ) (i : Int), base + (len * size : Nat) ≤ i →
      swap_endian size len base f i = f i := by
  intro len
  induction len with
  | zero => intro base f i _; rfl
  | succ n ih =>
    intro base f i hi
    show swap_endian size n (base + size) (swapOneElem size base f) i = f i
    have hmul : ((n + 1) * size : Nat) = (n * size : Nat) + size := by ring
    rw [hmul] at hi
    push_cast at hi
    rw [ih (base + size) (swapOneElem size base f) i (by push_cast; omega)]
    exact swapOneElem_frame size base f i (Or.inr (by omega))

theorem swap_endian_apply (size : Nat) (hs : size = 2 ∨ size = 4 ∨ size = 8) :
    ∀ (len : Nat) (base : Int) (f : Int → ℕ) (e p : Nat), e < len → p < size →
      swap_endian size len base f (base + (e * size : Nat) + p) =
        f (base + (e * size : Nat) + (size - 1 - p : Nat)) := by
  intro len
  induction len with
  | zero => intro base f e p he _; omega
  | succ n ih =>
    intro base f e p he hp
    show swap_endian size n (base + size) (swapOneElem size base f) _ = _
    cases e with
    | zero =>
      have h1 : base + ((0 * size : Nat) : Int) + p = base + p := by push_cast; ring
      have h2 : base + p < base + size := by omega
      rw [h1, swap_endian_frame_low size n (base + size) _ _ h2,
        swapOneElem_apply size base f hs p hp]
      congr 1
      push_cast
      ring
    | succ e1 =>
      have h1 : base + (((e1 + 1) * size : Nat) : Int) + p =
          (base + size) + ((e1 * size : Nat) : Int) + p := by push_cast; ring
      rw [h1, ih (base + size) _ e1 p (by omega) hp]
      rw [swapOneElem_frame size base f _ (Or.inr (by
        have : (0 : Int) ≤ ((e1 * size : Nat) : Int) := by positivity
        have : (0 : Int) ≤ ((size - 1 - p : Nat) : Int) := by positivity
        omega))]
      congr 1
      push_cast
      ring

/-- C8: for every buffer of fixed-width (2-, 4- or 8-byte) elements and every
element count, applying swap_endian twice to the same buffer restores the
original byte sequence: swap_endian is an involution. -/
theorem swap_endian_involution (size len : Nat) (base : Int) (f : Int → ℕ)
    (hs : size = 2 ∨ size = 4 ∨ size = 8) :
    swap_endian size len base (swap_endian size len base f) = f := by
  have hpos : 0 < size := by rcases hs with rfl | rfl | rfl <;> norm_num
  funext i
  by_cases hlow : i < base
  · rw [swap_endian_frame_low size len base _ i hlow,
      swap_endian_frame_low size len base f i hlow]
  · by_cases hhigh : base + (len * size : Nat) ≤ i
    · rw [swap_endian_frame_high size len base _ i hhigh,
        swap_endian_frame_high size len base f i hhigh]
    · have hin : base ≤ i ∧ i < base + (len * size : Nat) := ⟨by omega, by omega⟩
      set n : Nat := (i - base).toNat with hn
      have hin2 : (n : Int) = i - base := by omega
      have hnlt : n < len * size := by omega
      have hdm : n / size * size + n % size = n := Nat.div_add_mod' n size
      have hep : i = base + ((n / size * size : Nat) : Int) + ((n % size : Nat) : Int) := by
        omega
      have he : n / size < len := (Nat.div_lt_iff_lt_mul hpos).mpr (by omega)
      have hp : n % size < size := Nat.mod_lt n hpos
      rw [hep, swap_endian_apply size hs len base _ _ _ he hp]
      have hp2 : size - 1 - n % size < size := by omega
      rw [swap_endian_apply size hs len base f _ _ he hp2]
      congr 2
      omega

/-- Witness for C8: a concrete 2-byte-element buffer of three elements. -/
theorem swap_endian_involution_witness :
    swap_endian 2 3 0 (swap_endian 2 3 0 (fun k => k.toNat)) = (fun k => k.toNat) :=
  swap_endian_involution 2 3 0 (fun k => k.toNat) (Or.inl rfl)

/-- C2 (refutation): evaluation of add_dither at the concrete grid nchannels 1,
width 1, height 2, xstride 4 bytes, ystride 4 bytes, amplitude 1, no excluded
channel (alpha −1), seed 1, over an all-zero buffer.  The row-1 sample (float
index ystride/4 = 1) is left unchanged, while the row-0 sample (index 0)
receives both rows' perturbations — the two bjmix conjuncts identify the two
row hashes used.  The claim instead requires each row's sample to be perturbed
exactly once, by the nonzero amount recorded in the last conjunct. -/
theorem add_dither_second_row_unchanged :
    add_dither 1 1 2 (fun _ => 0) 4 4 1 (-1) 1 1 = 0 ∧
    add_dither 1 1 2 (fun _ => 0) 4 4 1 (-1) 1 0 =
      1 * (ditherValue 2517591531 - 1/2) + 1 * (ditherValue 2660231649 - 1/2) ∧
    bjmix 0 1 0 = (4278190083, 4161795841, 2517591531) ∧
    bjmix 1 1 0 = (3217129409, 2106408522, 2660231649) ∧
    1 * (ditherValue 2660231649 - 1/2) ≠ 0 := by
  have hb0 : bjmix 0 1 0 = (4278190083, 4161795841, 2517591531) := by decide
  have hb1 : bjmix 1 1 0 = (3217129409, 2106408522, 2660231649) := by decide
  refine ⟨?_, ?_, hb0, hb1, ?_⟩
  · norm_num [add_dither, ditherRows, ditherPixels, ditherChans, hb0, hb1, setQ,
      ditherValue, U32]
  · norm_num [add_dither, ditherRows, ditherPixels, ditherChans, hb0, hb1, setQ,
      ditherValue, U32]
  · norm_num [ditherValue]

theorem setB_same (f : Int → ℕ) (i : Int) (v : ℕ) : setB f i v i = v := if_pos rfl

theorem setB_ne (f : Int → ℕ) (i : Int) (v : ℕ) (j : Int) (h : j ≠ i) :
    setB f i v j = f j := if_neg h

theorem idx_lt (x c dstN width : Nat) (hx : x < width) (hc : c < dstN) :
    x * dstN + c < width * dstN := by
  have h1 : (x + 1) * dstN = x * dstN + dstN := by ring
  have h2 : (x + 1) * dstN ≤ width * dstN := Nat.mul_le_mul_right dstN hx
  omega

theorem chans8_at (src : Int → ℚ) (start : Nat) (dB sB : Int) :
    ∀ (n : Nat) (dst : Int → ℕ) (c : Nat), c < n →
      chans8 src start dB sB n dst (dB + c) =
        floatToInt 256 (src (sB + (start + c : Nat))) := by
  intro n
  induction n with
  | zero => intro dst c hc; omega
  | succ n ih =>
    intro dst c hc
    show setB (chans8 src start dB sB n dst) (dB + n)
        (floatToInt 256 (src (sB + (start + n : Nat)))) (dB + c) = _
    by_cases h : c = n
    · subst h
      rw [setB_same]
    · rw [setB_ne _ _ _ _ (by omega)]
      exact ih dst c (by omega)

theorem chans8_frame (src : Int → ℚ) (start : Nat) (dB sB : Int) :
    ∀ (n : Nat) (dst : Int → ℕ) (i : Int), i < dB ∨ dB + n ≤ i →
      chans8 src start dB sB n dst i = dst i := by
  intro n
  induction n with
  | zero => intro dst i _; rfl
  | succ n ih =>
    intro dst i hi
    show setB (chans8 src start dB sB n dst) (dB + n) _ i = dst i
    rw [setB_ne _ _ _ _ (by rcases hi with hi | hi <;> omega)]
    refine ih dst i ?_
    rcases hi with hi | hi
    · exact Or.inl hi
    · exact Or.inr (by omega)

theorem pixels8_frame (src : Int → ℚ) (start nComps dstN srcN : Nat) (hnd : nComps ≤ dstN) :
    ∀ (fuel : Nat) (dB sB : Int) (dst : Int → ℕ) (i : Int),
      i < dB ∨ dB + (fuel * dstN : Nat) ≤ i →
      pixels8 src start nComps dstN srcN fuel dB sB dst i = dst i := by
  intro fuel
  induction fuel with
  | zero => intro _ _ dst i _; rfl
  | succ fuel ih =>
    intro dB sB dst i hi
    have hexp : ((fuel + 1) * dstN : Nat) = fuel * dstN + dstN := by ring
    rw [hexp] at hi
    push_cast at hi
    show pixels8 src start nComps dstN srcN fuel (dB + dstN) (sB + srcN)
        (chans8 src start dB sB nComps dst) i = dst i
    rw [ih (dB + dstN) (sB + srcN) _ i (by push_cast; rcases hi with hi | hi <;> omega)]
    refine chans8_frame src start dB sB nComps dst i ?_
    rcases hi with hi | hi
    · exact Or.inl hi
    · exact Or.inr (by omega)

theorem pixels8_at (src : Int → ℚ) (start nComps dstN srcN : Nat) (hnd : nComps ≤ dstN) :
    ∀ (fuel : Nat) (dB sB : Int) (dst : Int → ℕ) (x c : Nat), x < fuel → c < nComps →
      pixels8 src start nComps dstN srcN fuel dB sB dst (dB + (x * dstN + c : Nat)) =
        floatToInt 256 (src (sB + (x * srcN + (start + c) : Nat))) := by
  intro fuel
  induction fuel with
  | zero => intro _ _ _ _ _ hx _; omega
  | succ fuel ih =>
    intro dB sB dst x c hx hc
    show pixels8 src start nComps dstN srcN fuel (dB + dstN) (sB + srcN)
        (chans8 src start dB sB nComps dst) _ = _
    cases x with
    | zero =>
      have h1 : dB + ((0 * dstN + c : Nat) : Int) = dB + c := by push_cast; ring
      rw [h1]
      have h2 : dB + (c : Int) < dB + dstN := by
        have : (c : Int) < dstN := by exact_mod_cast lt_of_lt_of_le hc hnd
        omega
      rw [pixels8_frame src start nComps dstN srcN hnd fuel (dB + dstN) (sB + srcN) _ _
        (Or.inl h2)]
      rw [chans8_at src start dB sB nComps dst c hc]
      congr 2
      push_cast
      ring
    | succ x1 =>
      have h1 : dB + (((x1 + 1) * dstN + c : Nat) : Int) =
          (dB + dstN) + ((x1 * dstN + c : Nat) : Int) := by push_cast; ring
      rw [h1, ih (dB + dstN) (sB + srcN) _ x1 c (by omega) hc]
      congr 2
      push_cast
      ring

theorem rows8_frame_low (src : Int → ℚ) (start nComps dstN srcN width : Nat)
    (srcRowElements : Int) (hnd : nComps ≤ dstN) :
    ∀ (h : Nat) (dB sB : Int) (dst : Int → ℕ) (i : Int), i < dB →
      rows8 src start nComps dstN srcN width ((width * dstN : Nat) : Int) srcRowElements
        h dB sB dst i = dst i := by
  intro h
  induction h with
  | zero => intro _ _ dst i _; rfl
  | succ h ih =>
    intro dB sB dst i hi
    show rows8 src start nComps dstN srcN width _ _ h
        (dB + (width * dstN : Nat) + (((width * dstN : Nat) : Int) - (width * dstN : Nat)))
        (sB + (width * srcN : Nat) + (srcRowElements - (width * srcN : Nat)))
        (pixels8 src start nComps dstN srcN width dB sB dst) i = dst i
    rw [ih _ _ _ i (by omega)]
    exact pixels8_frame src start nComps dstN srcN hnd width dB sB dst i (Or.inl hi)

theorem rows8_at (src : Int → ℚ) (start nComps dstN srcN width : Nat)
    (srcRowElements : Int) (hnd : nComps ≤ dstN) :
    ∀ (h : Nat) (dB sB : Int) (dst : Int → ℕ) (r x c : Nat), r < h → x < width → c < nComps →
      rows8 src start nComps dstN srcN width ((width * dstN : Nat) : Int) srcRowElements
          h dB sB dst (dB + (r * (width * dstN) + x * dstN + c : Nat)) =
        floatToInt 256 (src (sB + (r : Int) * srcRowElements + (x * srcN + (start + c) : Nat))) := by
  intro h
  induction h with
  | zero => intro _ _ _ _ _ _ hr _ _; omega
  | succ h ih =>
    intro dB sB dst r x c hr hx hc
    show rows8 src start nComps dstN srcN width _ _ h
        (dB + (width * dstN : Nat) + (((width * dstN : Nat) : Int) - (width * dstN : Nat)))
        (sB + (width * srcN : Nat) + (srcRowElements - (width * srcN : Nat)))
        (pixels8 src start nComps dstN srcN width dB sB dst) _ = _
    cases r with
    | zero =>
      have h1 : dB + ((0 * (width * dstN) + x * dstN + c : Nat) : Int) =
          dB + ((x * dstN + c : Nat) : Int) := by push_cast; ring
      rw [h1]
      have h2 : ((x * dstN + c : Nat) : Int) < ((width * dstN : Nat) : Int) := by
        exact_mod_cast idx_lt x c dstN width hx (lt_of_lt_of_le hc hnd)
      rw [rows8_frame_low src start nComps dstN srcN width srcRowElements hnd h _ _ _ _
        (by omega)]
      rw [pixels8_at src start nComps dstN srcN hnd width dB sB dst x c hx hc]
      congr 2
      push_cast
      ring
    | succ r1 =>
      have h1 : dB + (((r1 + 1) * (width * dstN) + x * dstN + c : Nat) : Int) =
          (dB + (width * dstN : Nat) + (((width * dstN : Nat) : Int) - (width * dstN : Nat)))
            + ((r1 * (width * dstN) + x * dstN + c : Nat) : Int) := by push_cast; ring
      rw [h1, ih _ _ _ r1 x c (by omega) hx hc]
      congr 2
      push_cast
      ring

theorem setShort_lo (le : Bool) (dst : Int → ℕ) (k : Int) (q : Nat) :
    setShort le dst k q (2 * k) = if le then q % 256 else q / 256 := by
  cases le
  · show setB (setB dst (2 * k) (q / 256)) (2 * k + 1) (q % 256) (2 * k) = q / 256
    rw [setB_ne _ _ _ _ (by omega), setB_same]
  · show setB (setB dst (2 * k) (q % 256)) (2 * k + 1) (q / 256) (2 * k) = q % 256
    rw [setB_ne _ _ _ _ (by omega), setB_same]

theorem setShort_hi (le : Bool) (dst : Int → ℕ) (k : Int) (q : Nat) :
    setShort le dst k q (2 * k + 1) = if le then q / 256 else q % 256 := by
  cases le
  · show setB (setB dst (2 * k) (q / 256)) (2 * k + 1) (q % 256) (2 * k + 1) = q % 256
    rw [setB_same]
  · show setB (setB dst (2 * k) (q % 256)) (2 * k + 1) (q / 256) (2 * k + 1) = q / 256
    rw [setB_same]

theorem setShort_frame (le : Bool) (dst : Int → ℕ) (k : Int) (q : Nat) (i : Int)
    (h1 : i ≠ 2 * k) (h2 : i ≠ 2 * k + 1) : setShort le dst k q i = dst i := by
  cases le
  · show setB (setB dst (2 * k) (q / 256)) (2 * k + 1) (q % 256) i = dst i
    rw [setB_ne _ _ _ _ h2, setB_ne _ _ _ _ h1]
  · show setB (setB dst (2 * k) (q % 256)) (2 * k + 1) (q / 256) i = dst i
    rw [setB_ne _ _ _ _ h2, setB_ne _ _ _ _ h1]

theorem chans16_at (le : Bool) (src : Int → ℚ) (start : Nat) (dB sB : Int) :
    ∀ (n : Nat) (dst : Int → ℕ) (c : Nat), c < n →
      chans16 le src start dB sB n dst (2 * (dB + c)) =
          (if le then floatToInt 65536 (src (sB + (start + c : Nat))) % 256
           else floatToInt 65536 (src (sB + (start + c : Nat))) / 256) ∧
      chans16 le src start dB sB n dst (2 * (dB + c) + 1) =
          (if le then floatToInt 65536 (src (sB + (start + c : Nat))) / 256
           else floatToInt 65536 (src (sB + (start + c : Nat))) % 256) := by
  intro n
  induction n with
  | zero => intro dst c hc; omega
  | succ n ih =>
    intro dst c hc
    have hunfold : chans16 le src start dB sB (n + 1) dst =
        setShort le (chans16 le src start dB sB n dst) (dB + n)
          (floatToInt 65536 (src (sB + (start + n : Nat)))) := rfl
    rw [hunfold]
    by_cases h : c = n
    · subst h
      exact ⟨setShort_lo le _ (dB + c) _, setShort_hi le _ (dB + c) _⟩
    · constructor
      · rw [setShort_frame le _ _ _ _ (by omega) (by omega)]
        exact (ih dst c (by omega)).1
      · rw [setShort_frame le _ _ _ _ (by omega) (by omega)]
        exact (ih dst c (by omega)).2

theorem chans16_frame (le : Bool) (src : Int → ℚ) (start : Nat) (dB sB : Int) :
    ∀ (n : Nat) (dst : Int → ℕ) (i : Int), i < 2 * dB ∨ 2 * (dB + n) ≤ i →
      chans16 le src start dB sB n dst i = dst i := by
  intro n
  induction n with
  | zero => intro dst i _; rfl
  | succ n ih =>
    intro dst i hi
    have hunfold : chans16 le src start dB sB (n + 1) dst =
        setShort le (chans16 le src start dB sB n dst) (dB + n)
          (floatToInt 65536 (src (sB + (start + n : Nat)))) := rfl
    rw [hunfold, setShort_frame le _ _ _ _ (by rcases hi with hi | hi <;> omega)
      (by rcases hi with hi | hi <;> omega)]
    refine ih dst i ?_
    rcases hi with hi | hi
    · exact Or.inl hi
    · exact Or.inr (by omega)

theorem pixels16_frame (le : Bool) (src : Int → ℚ) (start nComps dstN srcN : Nat)
    (hnd : nComps ≤ dstN) :
    ∀ (fuel : Nat) (dB sB : Int) (dst : Int → ℕ) (i : Int),
      i < 2 * dB ∨ 2 * (dB + (fuel * dstN : Nat)) ≤ i →
      pixels16 le src start nComps dstN srcN fuel dB sB dst i = dst i := by
  intro fuel
  induction fuel with
  | zero => intro _ _ dst i _; rfl
  | succ fuel ih =>
    intro dB sB dst i hi
    have hexp : ((fuel + 1) * dstN : Nat) = fuel * dstN + dstN := by ring
    rw [hexp] at hi
    push_cast at hi
    show pixels16 le src start nComps dstN srcN fuel (dB + dstN) (sB + srcN)
        (chans16 le src start dB sB nComps dst) i = dst i
    rw [ih (dB + dstN) (sB + srcN) _ i (by push_cast; rcases hi with hi | hi <;> omega)]
    refine chans16_frame le src start dB sB nComps dst i ?_
    rcases hi with hi | hi
    · exact Or.inl hi
    · exact Or.inr (by omega)

theorem pixels16_at (le : Bool) (src : Int → ℚ) (start nComps dstN srcN : Nat)
    (hnd : nComps ≤ dstN) :
    ∀ (fuel : Nat) (dB sB : Int) (dst : Int → ℕ) (x c : Nat), x < fuel → c < nComps →
      pixels16 le src start nComps dstN srcN fuel dB sB dst
          (2 * (dB + (x * dstN + c : Nat))) =
        (if le then floatToInt 65536 (src (sB + (x * srcN + (start + c) : Nat))) % 256
         else floatToInt 65536 (src (sB + (x * srcN + (start + c) : Nat))) / 256) ∧
      pixels16 le src start nComps dstN srcN fuel dB sB dst
          (2 * (dB + (x * dstN + c : Nat)) + 1) =
        (if le then floatToInt 65536 (src (sB + (x * srcN + (start + c) : Nat))) / 256
         else floatToInt 65536 (src (sB + (x * srcN + (start + c) : Nat))) % 256) := by
  intro fuel
  induction fuel with
  | zero => intro _ _ _ _ _ hx _; omega
  | succ fuel ih =>
    intro dB sB dst x c hx hc
    show pixels16 le src start nComps dstN srcN fuel (dB + dstN) (sB + srcN)
        (chans16 le src start dB sB nComps dst) _ = _ ∧
      pixels16 le src start nComps dstN srcN fuel (dB + dstN) (sB + srcN)
        (chans16 le src start dB sB nComps dst) _ = _
    cases x with
    | zero =>
      have h1 : 2 * (dB + ((0 * dstN + c : Nat) : Int)) = 2 * (dB + c) := by push_cast; ring
      have h2 : 2 * (dB + (c : Int)) < 2 * (dB + dstN) := by
        have : (c : Int) < dstN := by exact_mod_cast lt_of_lt_of_le hc hnd
        omega
      have hs0 : sB + ((0 * srcN + (start + c) : Nat) : Int) = sB + ((start + c : Nat) : Int) := by
        push_cast; ring
      rw [h1, hs0]
      constructor
      · rw [pixels16_frame le src start nComps dstN srcN hnd fuel (dB + dstN) (sB + srcN) _ _
          (Or.inl h2)]
        exact (chans16_at le src start dB sB nComps dst c hc).1
      · rw [pixels16_frame le src start nComps dstN srcN hnd fuel (dB + dstN) (sB + srcN) _ _
          (Or.inl (by omega))]
        exact (chans16_at le src start dB sB nComps dst c hc).2
    | succ x1 =>
      have h1 : 2 * (dB + (((x1 + 1) * dstN + c : Nat) : Int)) =
          2 * ((dB + dstN) + ((x1 * dstN + c : Nat) : Int)) := by push_cast; ring
      have hs1 : sB + (((x1 + 1) * srcN + (start + c) : Nat) : Int) =
          (sB + srcN) + ((x1 * srcN + (start + c) : Nat) : Int) := by push_cast; ring
      rw [h1, hs1]
      exact ih (dB + dstN) (sB + srcN) _ x1 c (by omega) hc

theorem pixels16_pad (le : Bool) (src : Int → ℚ) (start nComps dstN srcN : Nat)
    (hnd : nComps ≤ dstN) :
    ∀ (fuel : Nat) (dB sB : Int) (dst : Int → ℕ) (x c : Nat),
      x < fuel → nComps ≤ c → c < dstN →
      pixels16 le src start nComps dstN srcN fuel dB sB dst
          (2 * (dB + (x * dstN + c : Nat))) = dst (2 * (dB + (x * dstN + c : Nat))) ∧
      pixels16 le src start nComps dstN srcN fuel dB sB dst
          (2 * (dB + (x * dstN + c : Nat)) + 1) = dst (2 * (dB + (x * dstN + c : Nat)) + 1) := by
  intro fuel
  induction fuel with
  | zero => intro _ _ _ _ _ hx _ _; omega
  | succ fuel ih =>
    intro dB sB dst x c hx hcn hcd
    show pixels16 le src start nComps dstN srcN fuel (dB + dstN) (sB + srcN)
        (chans16 le src start dB sB nComps dst) _ = _ ∧
      pixels16 le src start nComps dstN srcN fuel (dB + dstN) (sB + srcN)
        (chans16 le src start dB sB nComps dst) _ = _
    cases x with
    | zero =>
      have h1 : 2 * (dB + ((0 * dstN + c : Nat) : Int)) = 2 * (dB + c) := by push_cast; ring
      rw [h1]
      have hlo : (nComps : Int) ≤ (c : Int) := by exact_mod_cast hcn
      have hhi : (c : Int) < (dstN : Int) := by exact_mod_cast hcd
      constructor
      · rw [pixels16_frame le src start nComps dstN srcN hnd fuel (dB + dstN) (sB + srcN) _ _
          (Or.inl (by omega))]
        exact chans16_frame le src start dB sB nComps dst _ (Or.inr (by omega))
      · rw [pixels16_frame le src start nComps dstN srcN hnd fuel (dB + dstN) (sB + srcN) _ _
          (Or.inl (by omega))]
        exact chans16_frame le src start dB sB nComps dst _ (Or.inr (by omega))
    | succ x1 =>
      have h1 : 2 * (dB + (((x1 + 1) * dstN + c : Nat) : Int)) =
          2 * ((dB + dstN) + ((x1 * dstN + c : Nat) : Int)) := by push_cast; ring
      rw [h1]
      have hnd2 : (nComps : Int) ≤ (dstN : Int) := by exact_mod_cast hnd
      have hmid := ih (dB + dstN) (sB + srcN) (chans16 le src start dB sB nComps dst)
        x1 c (by omega) hcn hcd
      have hfr1 := chans16_frame le src start dB sB nComps dst
        (2 * ((dB + dstN) + ((x1 * dstN + c : Nat) : Int))) (Or.inr (by omega))
      have hfr2 := chans16_frame le src start dB sB nComps dst
        (2 * ((dB + dstN) + ((x1 * dstN + c : Nat) : Int)) + 1) (Or.inr (by omega))
      exact ⟨hmid.1.trans hfr1, hmid.2.trans hfr2⟩

theorem rows16_frame_low (le : Bool) (src : Int → ℚ) (start nComps dstN srcN width : Nat)
    (rowEl : Nat) (srcRowElements : Int) (hnd : nComps ≤ dstN) :
    ∀ (h : Nat) (dB sB : Int) (dst : Int → ℕ) (i : Int), i < 2 * dB →
      rows16 le src start nComps dstN srcN width rowEl srcRowElements h dB sB dst i = dst i := by
  intro h
  induction h with
  | zero => intro _ _ dst i _; rfl
  | succ h ih =>
    intro dB sB dst i hi
    show rows16 le src start nComps dstN srcN width rowEl srcRowElements h
        (dB + rowEl) (sB + srcRowElements)
        (if le then swap_endian 2 rowEl (2 * dB)
            (pixels16 le src start nComps dstN srcN width dB sB dst)
          else pixels16 le src start nComps dstN srcN width dB sB dst) i = dst i
    rw [ih _ _ _ i (by omega)]
    by_cases hle : le
    · rw [if_pos hle, swap_endian_frame_low 2 rowEl (2 * dB) _ i hi]
      exact pixels16_frame le src start nComps dstN srcN hnd width dB sB dst i (Or.inl hi)
    · rw [if_neg hle]
      exact pixels16_frame le src start nComps dstN srcN hnd width dB sB dst i (Or.inl hi)

theorem rows16_at (le : Bool) (src : Int → ℚ) (start nComps dstN srcN width : Nat)
    (srcRowElements : Int) (hnd : nComps ≤ dstN) :
    ∀ (h : Nat) (dB sB : Int) (dst : Int → ℕ), (∀ i : Int, 2 * dB ≤ i → dst i = 0) →
      ∀ (r x c : Nat), r < h → x < width → c < dstN →
      rows16 le src start nComps dstN srcN width (width * dstN) srcRowElements h dB sB dst
          (2 * (dB + (r * (width * dstN) + x * dstN + c : Nat))) =
        (if c < nComps then
            floatToInt 65536
              (src (sB + (r : Int) * srcRowElements + (x * srcN + (start + c) : Nat)))
          else 0) / 256 ∧
      rows16 le src start nComps dstN srcN width (width * dstN) srcRowElements h dB sB dst
          (2 * (dB + (r * (width * dstN) + x * dstN + c : Nat)) + 1) =
        (if c < nComps then
            floatToInt 65536
              (src (sB + (r : Int) * srcRowElements + (x * srcN + (start + c) : Nat)))
          else 0) % 256 := by
  intro h
  induction h with
  | zero => intro _ _ _ _ _ _ _ hr _ _; omega
  | succ h ih =>
    intro dB sB dst hdst r x c hr hx hc
    have hunfold : rows16 le src start nComps dstN srcN width (width * dstN) srcRowElements
        (h + 1) dB sB dst =
        rows16 le src start nComps dstN srcN width (width * dstN) srcRowElements h
          (dB + (width * dstN : Nat)) (sB + srcRowElements)
          (if le then swap_endian 2 (width * dstN) (2 * dB)
              (pixels16 le src start nComps dstN srcN width dB sB dst)
            else pixels16 le src start nComps dstN srcN width dB sB dst) := rfl
    rw [hunfold]
    cases r with
    | zero =>
      have hElt : x * dstN + c < width * dstN := idx_lt x c dstN width hx hc
      have hidx0 : (2 : Int) * (dB + ((0 * (width * dstN) + x * dstN + c : Nat) : Int)) =
          2 * (dB + ((x * dstN + c : Nat) : Int)) := by push_cast; ring
      rw [hidx0]
      have hElt2 : ((x * dstN + c : Nat) : Int) < ((width * dstN : Nat) : Int) := by
        exact_mod_cast hElt
      rw [rows16_frame_low le src start nComps dstN srcN width (width * dstN) srcRowElements
        hnd h _ _ _ _ (by omega)]
      rw [rows16_frame_low le src start nComps dstN srcN width (width * dstN) srcRowElements
        hnd h _ _ _ _ (by omega)]
      have hsrc0 : sB + ((0 : Nat) : Int) * srcRowElements
          + ((x * srcN + (start + c) : Nat) : Int) =
          sB + ((x * srcN + (start + c) : Nat) : Int) := by push_cast; ring
      by_cases hle : le
      · rw [if_pos hle]
        have hq0 : (2 : Int) * (dB + ((x * dstN + c : Nat) : Int)) =
            2 * dB + (((x * dstN + c) * 2 : Nat) : Int) + ((0 : Nat) : Int) := by
          push_cast; ring
        have hq1 : (2 : Int) * (dB + ((x * dstN + c : Nat) : Int)) + 1 =
            2 * dB + (((x * dstN + c) * 2 : Nat) : Int) + ((1 : Nat) : Int) := by
          push_cast; ring
        rw [hq1, hq0]
        rw [swap_endian_apply 2 (Or.inl rfl) (width * dstN) (2 * dB) _ (x * dstN + c) 0 hElt
          (by norm_num)]
        rw [swap_endian_apply 2 (Or.inl rfl) (width * dstN) (2 * dB) _ (x * dstN + c) 1 hElt
          (by norm_num)]
        have hb1 : 2 * dB + (((x * dstN + c) * 2 : Nat) : Int) + ((2 - 1 - 0 : Nat) : Int) =
            2 * (dB + ((x * dstN + c : Nat) : Int)) + 1 := by norm_num; push_cast; ring
        have hb0 : 2 * dB + (((x * dstN + c) * 2 : Nat) : Int) + ((2 - 1 - 1 : Nat) : Int) =
            2 * (dB + ((x * dstN + c : Nat) : Int)) := by norm_num; push_cast; ring
        rw [hb1, hb0]
        by_cases hcn : c < nComps
        · have hp := pixels16_at le src start nComps dstN srcN hnd width dB sB dst x c hx hcn
          simp only [if_pos hle] at hp
          rw [if_pos hcn, hsrc0]
          exact ⟨hp.2, hp.1⟩
        · have hp := pixels16_pad le src start nComps dstN srcN hnd width dB sB dst x c hx
            (by omega) hc
          rw [if_neg hcn]
          constructor
          · rw [hp.2, hdst _ (by omega)]
          · rw [hp.1, hdst _ (by omega)]
      · rw [if_neg hle]
        by_cases hcn : c < nComps
        · have hp := pixels16_at le src start nComps dstN srcN hnd width dB sB dst x c hx hcn
          simp only [if_neg hle] at hp
          rw [if_pos hcn, hsrc0]
          exact ⟨hp.1, hp.2⟩
        · have hp := pixels16_pad le src start nComps dstN srcN hnd width dB sB dst x c hx
            (by omega) hc
          rw [if_neg hcn]
          constructor
          · rw [hp.1, hdst _ (by omega)]
          · rw [hp.2, hdst _ (by omega)]
    | succ r1 =>
      have hidx : (2 : Int) * (dB + (((r1 + 1) * (width * dstN) + x * dstN + c : Nat) : Int)) =
          2 * ((dB + (width * dstN : Nat)) + ((r1 * (width * dstN) + x * dstN + c : Nat) : Int))
          := by push_cast; ring
      rw [hidx]
      have hdst2 : ∀ i : Int, 2 * (dB + ((width * dstN : Nat) : Int)) ≤ i →
          (if le then swap_endian 2 (width * dstN) (2 * dB)
              (pixels16 le src start nComps dstN srcN width dB sB dst)
            else pixels16 le src start nComps dstN srcN width dB sB dst) i = 0 := by
        intro i hi2
        have hswf : ∀ g : Int → ℕ, swap_endian 2 (width * dstN) (2 * dB) g i = g i := by
          intro g
          refine swap_endian_frame_high 2 (width * dstN) (2 * dB) g i ?_
          push_cast
          omega
        have hpf := pixels16_frame le src start nComps dstN srcN hnd width dB sB dst i
          (Or.inr (by omega))
        by_cases hle : le
        · rw [if_pos hle, hswf, hpf, hdst _ (by omega)]
        · rw [if_neg hle, hpf, hdst _ (by omega)]
      have hres := ih (dB + (width * dstN : Nat)) (sB + srcRowElements) _ hdst2 r1 x c
        (by omega) hx hc
      have hsrc : sB + srcRowElements + ((r1 : Nat) : Int) * srcRowElements
          + ((x * srcN + (start + c) : Nat) : Int) =
          sB + (((r1 + 1) : Nat) : Int) * srcRowElements
          + ((x * srcN + (start + c) : Nat) : Int) := by push_cast; ring
      rw [hsrc] at hres
      exact hres

/-- C4: the row-major transcoder fills the zero-initialized scratch buffer so
that for each row r in source order, each pixel x, and each destination
channel c below min(dstNComps, pixelDataNComps), the tightly packed
destination sample at (r, x, c) equals the quantization of the source float
sample at source channel dstNCompsStartIndex + c of that pixel: in the 8-bit
path the byte at offset (r*width + x)*dstNComps + c is floatToInt<256> of
that sample, and in the 16-bit path the 16-bit sample at that element offset,
read in the emitted stream's byte order, is floatToInt<65536> of it, on
either kind of host. -/
theorem transcoder_fills_scratch (src : Int → ℚ) (start dstN srcN width height : Nat)
    (srcRowElements : Int) (le : Bool) (r x c : Nat)
    (hr : r < height) (hx : x < width) (hc : c < min dstN srcN) :
    rows8 src start (min dstN srcN) dstN srcN width ((width * dstN : Nat) : Int)
        srcRowElements height 0 0 (fun _ => 0)
        ((r * (width * dstN) + x * dstN + c : Nat) : Int) =
      floatToInt 256 (src ((r : Int) * srcRowElements + (x * srcN + (start + c) : Nat))) ∧
    256 * rows16 le src start (min dstN srcN) dstN srcN width (width * dstN)
        srcRowElements height 0 0 (fun _ => 0)
        (2 * ((r * (width * dstN) + x * dstN + c : Nat) : Int)) +
      rows16 le src start (min dstN srcN) dstN srcN width (width * dstN)
        srcRowElements height 0 0 (fun _ => 0)
        (2 * ((r * (width * dstN) + x * dstN + c : Nat) : Int) + 1) =
      floatToInt 65536 (src ((r : Int) * srcRowElements + (x * srcN + (start + c) : Nat))) := by
  have hnd : min dstN srcN ≤ dstN := Nat.min_le_left _ _
  have hcd : c < dstN := lt_of_lt_of_le hc hnd
  constructor
  · have h8 := rows8_at src start (min dstN srcN) dstN srcN width srcRowElements hnd
      height 0 0 (fun _ => 0) r x c hr hx hc
    simpa using h8
  · have h16 := rows16_at le src start (min dstN srcN) dstN srcN width srcRowElements hnd
      height 0 0 (fun _ => 0) (fun _ _ => rfl) r x c hr hx hcd
    rw [if_pos hc] at h16
    have h16a := h16.1
    have h16b := h16.2
    simp only [zero_add] at h16a h16b
    rw [h16a, h16b]
    exact Nat.div_add_mod _ 256

/-- Witness for C4 at a concrete one-pixel gray image with sample value 1/2. -/
theorem transcoder_fills_scratch_witness :
    rows8 (fun _ => 1/2) 0 (min 1 1) 1 1 1 ((1 * 1 : Nat) : Int) 1 1 0 0 (fun _ => 0)
        ((0 * (1 * 1) + 0 * 1 + 0 : Nat) : Int) =
      floatToInt 256 ((fun _ => 1/2 : Int → ℚ) ((0 : Nat) * 1 + ((0 * 1 + (0 + 0) : Nat) : Int)))
      := by
  have h := transcoder_fills_scratch (fun _ => 1/2) 0 1 1 1 1 1 true 0 0 0
    (by decide) (by decide) (by decide)
  exact h.1

theorem encode_invalid (args : EncodeArgs) (p : WriterParams) (pixelData : Int → ℚ)
    (hv : ¬ (args.dstNComps = 4 ∨ args.dstNComps = 3 ∨ args.dstNComps = 1)) :
    encode args p pixelData = ([], .error .unsupportedChannelCount) := by
  unfold encode
  rw [if_pos (by tauto)]

theorem encode_nofopen (args : EncodeArgs) (p : WriterParams) (pixelData : Int → ℚ)
    (hv : args.dstNComps = 4 ∨ args.dstNComps = 3 ∨ args.dstNComps = 1)
    (hf : p.fopenOK = false) :
    encode args p pixelData = ([], .error (.openFileFailed "Could not open file")) := by
  unfold encode
  rw [if_neg (by tauto), hf]
  simp

theorem encode_ok_shape (args : EncodeArgs) (p : WriterParams) (pixelData : Int → ℚ)
    (hv : args.dstNComps = 4 ∨ args.dstNComps = 3 ∨ args.dstNComps = 1)
    (hf : p.fopenOK = true) :
    ∃ ct, create_write_struct args.dstNComps = .ok ct ∧
      encode args p pixelData =
        ([Ev.openedFile args.filename, Ev.wroteInfo]
            ++ rowLoop (args.y2 - args.y1).toNat ++ [Ev.wroteEnd, Ev.closedFile],
          .ok { info := write_info ct args.x1 args.y1 (args.x2 - args.x1) (args.y2 - args.y1)
                  args.pixelAspect ""
                  (if p.bitdepth = 0 then BitDepth.ubyte else BitDepth.ushort),
                srcAfter := ditheredSource args p pixelData,
                scratch := encodeScratch args p (ditheredSource args p pixelData) }) := by
  rcases hv with h | h | h
  · exact ⟨6, by rw [h]; rfl, by unfold encode; rw [h, hf]; rfl⟩
  · exact ⟨2, by rw [h]; rfl, by unfold encode; rw [h, hf]; rfl⟩
  · exact ⟨0, by rw [h]; rfl, by unfold encode; rw [h, hf]; rfl⟩

/-- C1 (amended): destination channel counts 4, 3 and 1 pass encode's
channel-count check — the call then never fails with the
unsupported-channel-count error — while any other destination channel count,
including 2, makes encode fail with the unsupported-channel-count error and
an empty event trace, i.e. before any file is created at the destination
path. -/
theorem encode_channel_check (args : EncodeArgs) (p : WriterParams) (pixelData : Int → ℚ) :
    ((args.dstNComps = 4 ∨ args.dstNComps = 3 ∨ args.dstNComps = 1) →
      (encode args p pixelData).2 ≠ .error .unsupportedChannelCount) ∧
    (¬ (args.dstNComps = 4 ∨ args.dstNComps = 3 ∨ args.dstNComps = 1) →
      encode args p pixelData = ([], .error .unsupportedChannelCount)) := by
  constructor
  · intro hv
    by_cases hf : p.fopenOK
    · obtain ⟨ct, hct, heq⟩ := encode_ok_shape args p pixelData hv hf
      rw [heq]
      simp
    · rw [encode_nofopen args p pixelData hv (by simpa using hf)]
      simp
  · intro hv
    exact encode_invalid args p pixelData hv

/-- Witness for C1's amended theorem at destination channel count 3. -/
theorem encode_channel_check_witness :
    (encode ⟨"out.png", 0, 0, 1, 1, 1, 3, 0, 3, 12⟩ ⟨0, 6, 0, false, "", true, true⟩
      (fun _ => 0)).2 ≠ .error .unsupportedChannelCount :=
  (encode_channel_check ⟨"out.png", 0, 0, 1, 1, 1, 3, 0, 3, 12⟩
    ⟨0, 6, 0, false, "", true, true⟩ (fun _ => 0)).1 (Or.inr (Or.inl rfl))

/-- C1 (refutation as stated): a destination channel count of 2, which the
claim lists as passing the channel-count check, is rejected by encode with
the unsupported-channel-count error and an empty event trace — no file is
created — even on a host where opening the file would succeed. -/
theorem encode_two_channels_rejected :
    encode ⟨"out.png", 0, 0, 2, 2, 1, 2, 0, 2, 32⟩ ⟨0, 6, 0, true, "sRGB", true, true⟩
        (fun _ => 0) =
      ([], .error .unsupportedChannelCount) := by
  rfl

/-- C3 (refutation as stated): with the plugin's output color space configured
as "sRGB" — a name of the fixed table, for which the claim requires the sRGB
chunk — a successful encode still commits a header with no sRGB chunk and no
gamma value, because encode passes the empty string to write_info instead of
the configured name (WritePNG.cpp:548). -/
theorem encode_ignores_colorspace :
    (encodeInfo ⟨"out.png", 0, 0, 1, 1, 1, 3, 0, 3, 12⟩ ⟨0, 6, 0, false, "sRGB", true, true⟩
        (fun _ => 0)).map (fun i => (i.srgbChunk, i.gamma)) = some (false, none) := by
  rfl

/-- C3 (amended): write_info chooses the gamma/profile hint by exact string
match of its own color-space argument against the fixed table — sRGB family
names set the sRGB chunk, Gamma1.8 sets gamma 1/1.8, the Gamma2.2 family
1/2.2, the Linear family 1.0, and any name outside the table leaves both
unset, without error (write_info is total).  But every encode call passes the
empty string as that argument, so the committed header always has the
gamma/profile fields unset, regardless of the configured output color
space. -/
theorem write_info_gamma_table :
    (∀ (ct : Nat) (x1 y1 w h : Int) (par : ℚ) (name : String) (bd : BitDepth),
      (name ∈ srgbNames →
        (write_info ct x1 y1 w h par name bd).srgbChunk = true ∧
        (write_info ct x1 y1 w h par name bd).gamma = none) ∧
      (name = "Gamma1.8" →
        (write_info ct x1 y1 w h par name bd).srgbChunk = false ∧
        (write_info ct x1 y1 w h par name bd).gamma = some (1 / 1.8)) ∧
      (name ∈ gamma22Names →
        (write_info ct x1 y1 w h par name bd).srgbChunk = false ∧
        (write_info ct x1 y1 w h par name bd).gamma = some (1 / 2.2)) ∧
      (name ∈ linearNames →
        (write_info ct x1 y1 w h par name bd).srgbChunk = false ∧
        (write_info ct x1 y1 w h par name bd).gamma = some 1) ∧
      (name ∉ srgbNames → name ≠ "Gamma1.8" → name ∉ gamma22Names → name ∉ linearNames →
        (write_info ct x1 y1 w h par name bd).srgbChunk = false ∧
        (write_info ct x1 y1 w h par name bd).gamma = none)) ∧
    (∀ (args : EncodeArgs) (p : WriterParams) (pixelData : Int → ℚ) (i : PngInfo),
      encodeInfo args p pixelData = some i → i.srgbChunk = false ∧ i.gamma = none) := by
  constructor
  · intro ct x1 y1 w h par name bd
    refine ⟨?_, ?_, ?_, ?_, ?_⟩
    · intro hm
      fin_cases hm <;> exact ⟨rfl, rfl⟩
    · intro hm
      subst hm
      exact ⟨rfl, rfl⟩
    · intro hm
      fin_cases hm <;> exact ⟨rfl, rfl⟩
    · intro hm
      fin_cases hm <;> exact ⟨rfl, rfl⟩
    · intro h1 h2 h3 h4
      constructor <;> simp [write_info, h1, h2, h3, h4]
  · intro args p pixelData i hi
    by_cases hv : args.dstNComps = 4 ∨ args.dstNComps = 3 ∨ args.dstNComps = 1
    · by_cases hf : p.fopenOK
      · obtain ⟨ct, hct, heq⟩ := encode_ok_shape args p pixelData hv hf
        unfold encodeInfo at hi
        rw [heq] at hi
        simp only [Option.some.injEq] at hi
        rw [← hi]
        exact ⟨rfl, rfl⟩
      · rw [encodeInfo, encode_nofopen args p pixelData hv (by simpa using hf)] at hi
        simp at hi
    · rw [encodeInfo, encode_invalid args p pixelData hv] at hi
      simp at hi

/-- Witness for C3's amended theorem at the table name "sRGB". -/
theorem write_info_gamma_table_witness :
    (write_info 2 0 0 1 1 1 "sRGB" BitDepth.ubyte).srgbChunk = true :=
  ((write_info_gamma_table.1 2 0 0 1 1 1 "sRGB" BitDepth.ubyte).1 (by decide)).1

theorem rowWrites_rowLoop : ∀ n : Nat, rowWrites (rowLoop n) = (List.range n).reverse := by
  intro n
  induction n with
  | zero => rfl
  | succ n ih =>
    show rowWrites (Ev.wroteRow n :: rowLoop n) = (List.range (n + 1)).reverse
    rw [List.range_succ, List.reverse_append]
    simp only [rowWrites, List.filterMap_cons] at ih ⊢
    rw [ih]
    rfl

/-- C7: for every successful encode of a region of height H, the rows of the
scratch buffer are emitted in reverse order of their materialization: the row
write events carry indices H−1, H−2, …, 0 — so the i-th emitted row (i from
0) is the scratch row stored at index H−1−i — and every row index below H is
emitted exactly once. -/
theorem rows_emitted_reversed (args : EncodeArgs) (p : WriterParams) (pixelData : Int → ℚ)
    (hv : args.dstNComps = 4 ∨ args.dstNComps = 3 ∨ args.dstNComps = 1)
    (hf : p.fopenOK = true) :
    rowWrites (encode args p pixelData).1 =
      (List.range (args.y2 - args.y1).toNat).reverse ∧
    (∀ i, i < (args.y2 - args.y1).toNat →
      (rowWrites (encode args p pixelData).1).getD i 0 =
        (args.y2 - args.y1).toNat - 1 - i) ∧
    (∀ y, y < (args.y2 - args.y1).toNat →
      (rowWrites (encode args p pixelData).1).count y = 1) := by
  obtain ⟨ct, hct, heq⟩ := encode_ok_shape args p pixelData hv hf
  have h1 : (encode args p pixelData).1 =
      [Ev.openedFile args.filename, Ev.wroteInfo] ++ rowLoop (args.y2 - args.y1).toNat
        ++ [Ev.wroteEnd, Ev.closedFile] := by rw [heq]
  have h2 : rowWrites (encode args p pixelData).1 =
      (List.range (args.y2 - args.y1).toNat).reverse := by
    rw [h1]
    simp only [rowWrites, List.filterMap_append, List.filterMap_cons, List.filterMap_nil]
    simpa [rowWrites] using rowWrites_rowLoop (args.y2 - args.y1).toNat
  refine ⟨h2, ?_, ?_⟩
  · intro i hi
    rw [h2]
    have hlen : ((List.range (args.y2 - args.y1).toNat).reverse).length =
        (args.y2 - args.y1).toNat := by simp
    rw [List.getD_eq_getElem _ _ (by omega)]
    simp [List.getElem_reverse, List.getElem_range]
  · intro y hy
    rw [h2, List.count_reverse]
    exact List.count_eq_one_of_mem (List.nodup_range _) (List.mem_range.mpr hy)

/-- Witness for C7 at a concrete two-row encode. -/
theorem rows_emitted_reversed_witness :
    rowWrites (encode ⟨"out.png", 0, 0, 1, 2, 1, 3, 0, 3, 12⟩
        ⟨0, 6, 0, false, "", true, true⟩ (fun _ => 0)).1 = (List.range 2).reverse :=
  (rows_emitted_reversed ⟨"out.png", 0, 0, 1, 2, 1, 3, 0, 3, 12⟩
    ⟨0, 6, 0, false, "", true, true⟩ (fun _ => 0) (Or.inr (Or.inl rfl)) rfl).1

/-- C9: every encode call at 16-bit depth, or at 8-bit depth with dithering
disabled, leaves the caller's float buffer unchanged — the buffer after the
operation is the input buffer itself — and the in-place dithering mutation is
the only path that writes to the source buffer: whenever the post-call buffer
differs from the input, the call was at 8-bit depth with dithering
enabled. -/
theorem encode_preserves_source (args : EncodeArgs) (p : WriterParams)
    (pixelData : Int → ℚ)
    (hv : args.dstNComps = 4 ∨ args.dstNComps = 3 ∨ args.dstNComps = 1)
    (hf : p.fopenOK = true) :
    ((p.bitdepth ≠ 0 ∨ p.ditherEnabled = false) →
      encodeSrcAfter args p pixelData = some pixelData) ∧
    (ditheredSource args p pixelData ≠ pixelData →
      p.bitdepth = 0 ∧ p.ditherEnabled = true) := by
  have hdith : ∀ _ : ¬ (p.bitdepth = 0 ∧ p.ditherEnabled = true),
      ditheredSource args p pixelData = pixelData := by
    intro hcond
    unfold ditheredSource
    rw [if_neg hcond]
  constructor
  · intro hcond
    obtain ⟨ct, hct, heq⟩ := encode_ok_shape args p pixelData hv hf
    unfold encodeSrcAfter
    rw [heq]
    show some (ditheredSource args p pixelData) = some pixelData
    rw [hdith (by rcases hcond with h | h
                  · exact fun hand => h hand.1
                  · exact fun hand => by rw [h] at hand; exact Bool.false_ne_true hand.2)]
  · intro hne
    by_contra hcon
    exact hne (hdith hcon)

/-- Witness for C9 at a concrete 16-bit encode call. -/
theorem encode_preserves_source_witness :
    encodeSrcAfter ⟨"out.png", 0, 0, 1, 1, 1, 3, 0, 3, 12⟩ ⟨0, 6, 1, true, "", true, true⟩
        (fun _ => 0) = some (fun _ => 0) :=
  (encode_preserves_source ⟨"out.png", 0, 0, 1, 1, 1, 3, 0, 3, 12⟩
    ⟨0, 6, 1, true, "", true, true⟩ (fun _ => 0) (Or.inr (Or.inl rfl)) rfl).1
    (Or.inl (by decide))

/-- C10: the dithering invocation of encode uses the fixed seed 1 and the
fixed amplitude 1/255, with xstride pixelDataNComps bytes and ystride
pixelDataNComps*width bytes; its excluded-channel argument equals 3 exactly
when the source buffer has 4 channels, and for any other source channel count
it is −1, which no channel index (a natural number) equals, so no channel is
excluded. -/
theorem encode_dither_arguments (args : EncodeArgs) (p : WriterParams)
    (pixelData : Int → ℚ)
    (hv : args.dstNComps = 4 ∨ args.dstNComps = 3 ∨ args.dstNComps = 1)
    (hf : p.fopenOK = true) (hb : p.bitdepth = 0) (hd : p.ditherEnabled = true) :
    encodeSrcAfter args p pixelData = some
      (add_dither args.pixelDataNComps (args.x2 - args.x1).toNat (args.y2 - args.y1).toNat
        pixelData (args.pixelDataNComps * 1)
        (args.pixelDataNComps * 1 * (args.x2 - args.x1).toNat) (1 / 255)
        (if args.pixelDataNComps = 4 then 3 else -1) 1) ∧
    ((if args.pixelDataNComps = 4 then (3 : Int) else -1) = 3 ↔
      args.pixelDataNComps = 4) ∧
    (args.pixelDataNComps ≠ 4 →
      ∀ ch : Nat, (ch : Int) ≠ (if args.pixelDataNComps = 4 then (3 : Int) else -1)) := by
  refine ⟨?_, ?_, ?_⟩
  · obtain ⟨ct, hct, heq⟩ := encode_ok_shape args p pixelData hv hf
    unfold encodeSrcAfter
    rw [heq]
    show some (ditheredSource args p pixelData) = _
    unfold ditheredSource
    rw [if_pos ⟨hb, hd⟩]
  · by_cases h4 : args.pixelDataNComps = 4
    · simp [h4]
    · rw [if_neg h4]
      constructor
      · intro habs
        exact absurd habs (by norm_num)
      · intro habs
        exact absurd habs h4
  · intro hne ch
    rw [if_neg hne]
    omega

/-- Witness for C10 at a concrete 8-bit dithered encode call with a 3-channel
source. -/
theorem encode_dither_arguments_witness :
    encodeSrcAfter ⟨"out.png", 0, 0, 1, 1, 1, 3, 0, 3, 12⟩ ⟨0, 6, 0, true, "", true, true⟩
        (fun _ => 0) = some
      (add_dither 3 1 1 (fun _ => 0) (3 * 1) (3 * 1 * 1) (1 / 255)
        (if (3 : Nat) = 4 then 3 else -1) 1) :=
  (encode_dither_arguments ⟨"out.png", 0, 0, 1, 1, 1, 3, 0, 3, 12⟩
    ⟨0, 6, 0, true, "", true, true⟩ (fun _ => 0) (Or.inr (Or.inl rfl)) rfl rfl rfl).1

/-- C6: the 16-bit path normalizes endianness per row — processing one row is
the production of its shorts followed, exactly when the host is
little-endian, by a byte swap of that row, before the next row is processed
(first conjunct, the loop's step equation).  The emitted byte stream is
big-endian regardless of host byte order: at every sample position the even
byte is the quantized sample's high byte and the odd byte its low byte, for
either Boolean host order, with zero-filled channel positions staying zero
(second conjunct).  In the 8-bit path no endian transformation is ever
applied: the scratch production at 8-bit depth is identical whatever the host
byte order (last conjunct; the 8-bit loop never consults littleendian()). -/
theorem sixteen_bit_big_endian :
    (∀ (le : Bool) (src : Int → ℚ) (start nComps dstN srcN width rowEl : Nat)
        (srcRowElements : Int) (n : Nat) (dB sB : Int) (dst : Int → ℕ),
      rows16 le src start nComps dstN srcN width rowEl srcRowElements (n + 1) dB sB dst =
        rows16 le src start nComps dstN srcN width rowEl srcRowElements n
          (dB + rowEl) (sB + srcRowElements)
          (if le then swap_endian 2 rowEl (2 * dB)
              (pixels16 le src start nComps dstN srcN width dB sB dst)
            else pixels16 le src start nComps dstN srcN width dB sB dst)) ∧
    (∀ (le : Bool) (src : Int → ℚ) (start dstN srcN width height : Nat)
        (srcRowElements : Int) (r x c : Nat), r < height → x < width → c < dstN →
      rows16 le src start (min dstN srcN) dstN srcN width (width * dstN) srcRowElements
          height 0 0 (fun _ => 0)
          (2 * ((r * (width * dstN) + x * dstN + c : Nat) : Int)) =
        (if c < min dstN srcN then
            floatToInt 65536
              (src ((r : Int) * srcRowElements + (x * srcN + (start + c) : Nat)))
          else 0) / 256 ∧
      rows16 le src start (min dstN srcN) dstN srcN width (width * dstN) srcRowElements
          height 0 0 (fun _ => 0)
          (2 * ((r * (width * dstN) + x * dstN + c : Nat) : Int) + 1) =
        (if c < min dstN srcN then
            floatToInt 65536
              (src ((r : Int) * srcRowElements + (x * srcN + (start + c) : Nat)))
          else 0) % 256) ∧
    (∀ (args : EncodeArgs) (p : WriterParams) (data : Int → ℚ) (le1 le2 : Bool),
      p.bitdepth = 0 →
      encodeScratch args { p with littleEndian := le1 } data =
        encodeScratch args { p with littleEndian := le2 } data) := by
  refine ⟨?_, ?_, ?_⟩
  · intro le src start nComps dstN srcN width rowEl srcRowElements n dB sB dst
    rfl
  · intro le src start dstN srcN width height srcRowElements r x c hr hx hc
    have h := rows16_at le src start (min dstN srcN) dstN srcN width srcRowElements
      (Nat.min_le_left _ _) height 0 0 (fun _ => 0) (fun _ _ => rfl) r x c hr hx hc
    simpa using h
  · intro args p data le1 le2 hb
    simp [encodeScratch, hb]

/-- Witness for C6: the 8-bit scratch production of a concrete encode is
independent of the host byte order. -/
theorem sixteen_bit_big_endian_witness :
    encodeScratch ⟨"out.png", 0, 0, 1, 1, 1, 3, 0, 3, 12⟩
        { compression := 0, compressionLevel := 6, bitdepth := 0, ditherEnabled := false,
          outputColorspace := "", littleEndian := true, fopenOK := true } (fun _ => 0) =
      encodeScratch ⟨"out.png", 0, 0, 1, 1, 1, 3, 0, 3, 12⟩
        { compression := 0, compressionLevel := 6, bitdepth := 0, ditherEnabled := false,
          outputColorspace := "", littleEndian := false, fopenOK := true } (fun _ => 0) :=
  sixteen_bit_big_endian.2.2 ⟨"out.png", 0, 0, 1, 1, 1, 3, 0, 3, 12⟩
    { compression := 0, compressionLevel := 6, bitdepth := 0, ditherEnabled := false,
      outputColorspace := "", littleEndian := true, fopenOK := true } (fun _ => 0)
    true false rfl

end WritePNG
